import Mathlib

/-!
Verification of the Carlink CPC200 transport / session / video-pipeline core
against its specification. The repository ships reconstructed C++ headers
(USBConnectionNative.h, H264DecoderNative.h, AudioProcessNative.h) that declare
the interfaces; the behaviour of each operation is modelled here from the
specification's component design and proved against the spec's testable
properties.
-/

namespace Carlink

/-! ### Constants from USBConnectionNative.h -/

/-- CARLINKIT_VENDOR_ID from USBConnectionNative.h line 21 (0x1314 = 4884). -/
def CARLINKIT_VENDOR_ID : Nat := 0x1314

/-- CPC200_PRODUCT_ID from USBConnectionNative.h line 22 (0x1520). -/
def CPC200_PRODUCT_ID : Nat := 0x1520

/-- USB_MAX_PACKET_SIZE from USBConnectionNative.h line 29: the transfer
buffer size, used by the Frame Codec as the sane maximum payload length. -/
def USB_MAX_PACKET_SIZE : Nat := 8192

/-! ### Frame Codec -/

/-- Protocol Packet data model (spec section 3): command/type tag, payload
length, payload bytes; the length is implicit in the payload list. -/
structure ProtocolPacket where
  tag : Nat
  payload : List Nat
deriving DecidableEq, Repr

/-- Modelled from the spec: the wire format of `CPC200ProtocolHandler::SendProtocolPacket`
(declaration only in USBConnectionNative.h line 207; no body exists in the
repository). Spec section 6: fixed-size header (command/type tag + length)
followed by `length` bytes of payload, no padding. The header is the tag byte
followed by a two-byte little-endian length. -/
def encodePacket (p : ProtocolPacket) : List Nat :=
  p.tag :: p.payload.length % 256 :: p.payload.length / 256 :: p.payload

/-- Modelled from the spec: the receive loop of
`CPC200ProtocolHandler::ReceiveProtocolPacket` (declaration only in
USBConnectionNative.h line 208; no body exists in the repository). Spec
section 4.2: while the buffer holds at least a complete packet header, parse
{tag, length}; if the length exceeds the sane maximum, discard one byte and
resynchronize; if the buffer does not yet hold `length` more bytes, wait for
more input; once complete, emit one Protocol Packet and advance past it.
Returns the emitted packets and the residual buffer. -/
def drainBuffer : List Nat → List ProtocolPacket × List Nat
  | t :: l0 :: l1 :: rest =>
    if USB_MAX_PACKET_SIZE < l0 + 256 * l1 then
      drainBuffer (l0 :: l1 :: rest)
    else if l0 + 256 * l1 ≤ rest.length then
      let r := drainBuffer (rest.drop (l0 + 256 * l1))
      (⟨t, rest.take (l0 + 256 * l1)⟩ :: r.1, r.2)
    else
      ([], t :: l0 :: l1 :: rest)
  | buf => ([], buf)
termination_by buf => buf.length
decreasing_by
  · simp
  · simp [List.length_drop]
    omega

/-- Frame Codec state (spec section 4.2): the growable receive buffer fed by
Transport reads. -/
structure CodecState where
  buffer : List Nat
deriving DecidableEq, Repr

/-- The codec's start state: an empty receive buffer. -/
def codecInit : CodecState := ⟨[]⟩

/-- Modelled from the spec: one iteration of the Frame Codec loop (spec
section 4.2) — append newly read bytes to the receive buffer, then emit every
complete packet. -/
def feedChunk (s : CodecState) (chunk : List Nat) : CodecState × List ProtocolPacket :=
  ((⟨(drainBuffer (s.buffer ++ chunk)).2⟩ : CodecState), (drainBuffer (s.buffer ++ chunk)).1)

/-- Feed a sequence of read chunks to the Frame Codec, collecting every
emitted packet in order. -/
def feedChunks (s : CodecState) : List (List Nat) → CodecState × List ProtocolPacket
  | [] => (s, [])
  | c :: cs =>
    ((feedChunks (feedChunk s c).1 cs).1,
      (feedChunk s c).2 ++ (feedChunks (feedChunk s c).1 cs).2)

/-! ### Frame Codec lemmas -/

theorem drainBuffer_short (buf : List Nat) (h : buf.length < 3) :
    drainBuffer buf = ([], buf) := by
  match buf with
  | [] => rw [drainBuffer]; simp
  | [a] => rw [drainBuffer]; simp
  | [a, b] => rw [drainBuffer]; simp
  | a :: b :: c :: rest => simp at h; omega

theorem drainBuffer_cons_malformed (t l0 l1 : Nat) (rest : List Nat)
    (h : USB_MAX_PACKET_SIZE < l0 + 256 * l1) :
    drainBuffer (t :: l0 :: l1 :: rest) = drainBuffer (l0 :: l1 :: rest) := by
  rw [drainBuffer]
  simp [h]

theorem drainBuffer_cons_complete (t l0 l1 : Nat) (rest : List Nat)
    (h1 : ¬ USB_MAX_PACKET_SIZE < l0 + 256 * l1)
    (h2 : l0 + 256 * l1 ≤ rest.length) :
    drainBuffer (t :: l0 :: l1 :: rest) =
      (⟨t, rest.take (l0 + 256 * l1)⟩ :: (drainBuffer (rest.drop (l0 + 256 * l1))).1,
        (drainBuffer (rest.drop (l0 + 256 * l1))).2) := by
  rw [drainBuffer]
  simp [h1, h2]

theorem drainBuffer_cons_wait (t l0 l1 : Nat) (rest : List Nat)
    (h1 : ¬ USB_MAX_PACKET_SIZE < l0 + 256 * l1)
    (h2 : ¬ l0 + 256 * l1 ≤ rest.length) :
    drainBuffer (t :: l0 :: l1 :: rest) = ([], t :: l0 :: l1 :: rest) := by
  rw [drainBuffer]
  simp [h1, h2]

/-- Draining a buffer and then appending more bytes is the same as draining
the concatenation: the packets already emitted stay emitted, and the residual
buffer absorbs the new bytes. -/
theorem drainBuffer_append (buf x : List Nat) :
    drainBuffer (buf ++ x) =
      ((drainBuffer buf).1 ++ (drainBuffer ((drainBuffer buf).2 ++ x)).1,
        (drainBuffer ((drainBuffer buf).2 ++ x)).2) := by
  generalize hn : buf.length = n
  induction n using Nat.strong_induction_on generalizing buf with
  | _ n ih =>
    match buf with
    | [] => simp [drainBuffer_short]
    | [a] => simp [drainBuffer_short]
    | [a, b] => simp [drainBuffer_short]
    | t :: l0 :: l1 :: rest =>
      by_cases hm : USB_MAX_PACKET_SIZE < l0 + 256 * l1
      · rw [List.cons_append, List.cons_append, List.cons_append,
          drainBuffer_cons_malformed t l0 l1 (rest ++ x) hm,
          drainBuffer_cons_malformed t l0 l1 rest hm,
          ← List.cons_append, ← List.cons_append]
        exact ih (l0 :: l1 :: rest).length (by simp at hn ⊢; omega)
          (l0 :: l1 :: rest) rfl
      · by_cases hc : l0 + 256 * l1 ≤ rest.length
        · have hcx : l0 + 256 * l1 ≤ (rest ++ x).length := by
            simp; omega
          rw [List.cons_append, List.cons_append, List.cons_append,
            drainBuffer_cons_complete t l0 l1 (rest ++ x) hm hcx,
            drainBuffer_cons_complete t l0 l1 rest hm hc,
            List.take_append_of_le_length hc,
            List.drop_append_of_le_length hc]
          have := ih (rest.drop (l0 + 256 * l1)).length
            (by simp at hn ⊢; omega) (rest.drop (l0 + 256 * l1)) rfl
          rw [this]
          simp
        · rw [drainBuffer_cons_wait t l0 l1 rest hm hc]
          simp

/-- The residual buffer left by the drain loop is quiescent: draining it again
emits nothing (it is either shorter than a header or an incomplete packet). -/
theorem drainBuffer_residual (buf : List Nat) :
    drainBuffer (drainBuffer buf).2 = ([], (drainBuffer buf).2) := by
  generalize hn : buf.length = n
  induction n using Nat.strong_induction_on generalizing buf with
  | _ n ih =>
    match buf with
    | [] => simp [drainBuffer_short]
    | [a] => simp [drainBuffer_short]
    | [a, b] => simp [drainBuffer_short]
    | t :: l0 :: l1 :: rest =>
      by_cases hm : USB_MAX_PACKET_SIZE < l0 + 256 * l1
      · rw [drainBuffer_cons_malformed t l0 l1 rest hm]
        exact ih (l0 :: l1 :: rest).length (by simp at hn ⊢; omega) _ rfl
      · by_cases hc : l0 + 256 * l1 ≤ rest.length
        · rw [drainBuffer_cons_complete t l0 l1 rest hm hc]
          exact ih (rest.drop (l0 + 256 * l1)).length
            (by simp at hn ⊢; omega) _ rfl
        · rw [drainBuffer_cons_wait t l0 l1 rest hm hc]
          exact drainBuffer_cons_wait t l0 l1 rest hm hc

/-- Feeding chunks one at a time from a quiescent buffer emits exactly the
packets of the drained concatenation: chunk boundaries are invisible. -/
theorem feedChunks_flatten (cs : List (List Nat)) (b : List Nat)
    (hq : drainBuffer b = ([], b)) :
    feedChunks ⟨b⟩ cs =
      ((⟨(drainBuffer (b ++ cs.flatten)).2⟩ : CodecState),
        (drainBuffer (b ++ cs.flatten)).1) := by
  induction cs generalizing b with
  | nil => simp [feedChunks, hq]
  | cons c cs ihc =>
    have hq2 := drainBuffer_residual (b ++ c)
    have ihr := ihc (drainBuffer (b ++ c)).2 hq2
    calc feedChunks ⟨b⟩ (c :: cs)
        = ((feedChunks ⟨(drainBuffer (b ++ c)).2⟩ cs).1,
            (drainBuffer (b ++ c)).1 ++ (feedChunks ⟨(drainBuffer (b ++ c)).2⟩ cs).2) := by
          simp [feedChunks, feedChunk]
      _ = ((⟨(drainBuffer (b ++ (c :: cs).flatten)).2⟩ : CodecState),
            (drainBuffer (b ++ (c :: cs).flatten)).1) := by
          rw [ihr]
          have hap : b ++ (c :: cs).flatten = (b ++ c) ++ cs.flatten := by
            simp
          rw [hap, drainBuffer_append (b ++ c) cs.flatten]

/-- Draining the exact encoding of a well-sized packet emits that one packet
and leaves an empty buffer. -/
theorem drainBuffer_encode (p : ProtocolPacket)
    (hp : p.payload.length ≤ USB_MAX_PACKET_SIZE) :
    drainBuffer (encodePacket p) = ([p], []) := by
  have hL : p.payload.length % 256 + 256 * (p.payload.length / 256) = p.payload.length :=
    Nat.mod_add_div _ _
  rw [encodePacket,
    drainBuffer_cons_complete p.tag (p.payload.length % 256) (p.payload.length / 256)
      p.payload (by omega) (by omega)]
  rw [hL, List.take_length, List.drop_length, drainBuffer_short [] (by simp)]

/-- A strict prefix of an encoded packet makes the codec emit nothing: either
the header is incomplete, or the payload is still short of the announced
length. -/
theorem drainBuffer_incomplete (p : ProtocolPacket)
    (hp : p.payload.length ≤ USB_MAX_PACKET_SIZE) :
    ∀ pre more : List Nat, pre ++ more = encodePacket p → more ≠ [] →
      (drainBuffer pre).1 = [] := by
  intro pre more hsplit hne
  match pre with
  | [] => rw [drainBuffer_short [] (by simp)]
  | [a] => rw [drainBuffer_short [a] (by simp)]
  | [a, b] => rw [drainBuffer_short [a, b] (by simp)]
  | a :: b :: c :: rest =>
    rw [encodePacket] at hsplit
    simp only [List.cons_append, List.cons.injEq] at hsplit
    obtain ⟨ha, hb, hc2, hrest⟩ := hsplit
    subst ha hb hc2
    have hlen : rest.length + more.length = p.payload.length := by
      have := congrArg List.length hrest
      simpa using this
    have hmore : 1 ≤ more.length := by
      cases more with
      | nil => exact absurd rfl hne
      | cons x xs => simp
    have hL : p.payload.length % 256 + 256 * (p.payload.length / 256) = p.payload.length :=
      Nat.mod_add_div _ _
    rw [drainBuffer_cons_wait p.tag (p.payload.length % 256) (p.payload.length / 256) rest
      (by omega) (by omega)]

/-! ### Claim theorems for the Frame Codec -/

/-- C1: for every valid protocol packet {tag, length, payload} whose encoding
is fed to the Frame Codec split into arbitrary chunk sizes, the codec emits
exactly one Protocol Packet equal to the original triple, and it never emits a
packet before all `length` payload bytes have arrived: draining any strict
prefix of the encoding emits nothing. -/
theorem C1_chunking_invariance (p : ProtocolPacket)
    (hp : p.payload.length ≤ USB_MAX_PACKET_SIZE) :
    (∀ cs : List (List Nat), cs.flatten = encodePacket p →
      feedChunks codecInit cs = (codecInit, [p])) ∧
    (∀ pre more : List Nat, pre ++ more = encodePacket p → more ≠ [] →
      (drainBuffer pre).1 = []) := by
  constructor
  · intro cs hcs
    have h0 : drainBuffer ([] : List Nat) = ([], []) := drainBuffer_short [] (by simp)
    have := feedChunks_flatten cs [] h0
    rw [codecInit, this]
    simp only [List.nil_append, hcs, drainBuffer_encode p hp]
  · exact drainBuffer_incomplete p hp

/-- Witness for C1 at the packet {tag 5, payload [1, 2, 3]} fed in three
chunks that split both the header and the payload. -/
theorem C1_chunking_invariance_witness :
    feedChunks codecInit [[5, 3], [0, 1], [2, 3]] =
      (codecInit, [ProtocolPacket.mk 5 [1, 2, 3]]) :=
  (C1_chunking_invariance ⟨5, [1, 2, 3]⟩ (by decide)).1
    [[5, 3], [0, 1], [2, 3]] (by decide)

/-- C2: a corrupt byte in front of a valid packet forms a malformed header
(its parsed length field exceeds the sane maximum); the codec discards that
one byte, resynchronizes on the remaining bytes, and emits the valid packet —
no error is surfaced and the stream is fully consumed. -/
theorem C2_resynchronization (b : Nat) (p : ProtocolPacket)
    (hp : p.payload.length ≤ USB_MAX_PACKET_SIZE)
    (hbad : USB_MAX_PACKET_SIZE < p.tag + 256 * (p.payload.length % 256)) :
    drainBuffer (b :: encodePacket p) = ([p], []) ∧
    drainBuffer (b :: encodePacket p) = drainBuffer (encodePacket p) := by
  have hdrop : drainBuffer (b :: encodePacket p) = drainBuffer (encodePacket p) := by
    rw [encodePacket]
    exact drainBuffer_cons_malformed b p.tag (p.payload.length % 256)
      (p.payload.length / 256 :: p.payload) hbad
  exact ⟨hdrop.trans (drainBuffer_encode p hp), hdrop⟩

/-- Witness for C2: corrupt byte 7 in front of the packet {tag 0, 33-byte
payload}; the bogus header announces length 256 * 33 = 8448 > 8192. -/
theorem C2_resynchronization_witness :
    drainBuffer (7 :: encodePacket ⟨0, List.replicate 33 1⟩) =
      ([ProtocolPacket.mk 0 (List.replicate 33 1)], []) :=
  (C2_resynchronization 7 ⟨0, List.replicate 33 1⟩ (by decide) (by decide)).1

/-- C10: every Protocol Packet the drain loop emits carries a payload of at
most USB_MAX_PACKET_SIZE = 8192 bytes, the sane maximum above which a parsed
header is treated as malformed. -/
theorem C10_payload_bounded (buf : List Nat) (pkt : ProtocolPacket)
    (hmem : pkt ∈ (drainBuffer buf).1) :
    pkt.payload.length ≤ USB_MAX_PACKET_SIZE := by
  generalize hn : buf.length = n
  induction n using Nat.strong_induction_on generalizing buf with
  | _ n ih =>
    match buf with
    | [] => rw [drainBuffer_short [] (by simp)] at hmem; simp at hmem
    | [a] => rw [drainBuffer_short [a] (by simp)] at hmem; simp at hmem
    | [a, b] => rw [drainBuffer_short [a, b] (by simp)] at hmem; simp at hmem
    | t :: l0 :: l1 :: rest =>
      by_cases hm : USB_MAX_PACKET_SIZE < l0 + 256 * l1
      · rw [drainBuffer_cons_malformed t l0 l1 rest hm] at hmem
        exact ih (l0 :: l1 :: rest).length (by simp at hn ⊢; omega) _ hmem rfl
      · by_cases hc : l0 + 256 * l1 ≤ rest.length
        · rw [drainBuffer_cons_complete t l0 l1 rest hm hc] at hmem
          simp only [List.mem_cons] at hmem
          rcases hmem with h | h
          · subst h
            simp only [List.length_take]
            omega
          · exact ih (rest.drop (l0 + 256 * l1)).length
              (by simp at hn ⊢; omega) _ h rfl
        · rw [drainBuffer_cons_wait t l0 l1 rest hm hc] at hmem
          simp at hmem

/-- Witness for C10 at the buffer [1, 1, 0, 9], which drains to the single
packet {tag 1, payload [9]}. -/
theorem C10_payload_bounded_witness :
    (ProtocolPacket.mk 1 [9]).payload.length ≤ USB_MAX_PACKET_SIZE :=
  C10_payload_bounded [1, 1, 0, 9] ⟨1, [9]⟩ (by
    rw [drainBuffer_cons_complete 1 1 0 [9] (by decide) (by decide)]
    norm_num)

/-! ### Video Reassembler / Decode Pipeline -/

/-- One encoded H.264 access unit handed to the decoder, with its input
bitstream timestamp (SBufferInfo.uiInBsTimeStamp in H264DecoderNative.h). -/
structure EncodedFrame where
  data : List Nat
  inTs : Nat
deriving DecidableEq, Repr

/-- Decoded Frame data model (spec section 3): YUV bytes plus the input and
output timestamps (SBufferInfo.uiInBsTimeStamp / uiOutYuvTimeStamp in
H264DecoderNative.h lines 14-21). -/
structure DecodedFrame where
  yuv : List Nat
  inTs : Nat
  outTs : Nat
deriving DecidableEq, Repr

/-- Modelled from the spec: `H264Decoder::DecodeFrame` (declaration only in
H264DecoderNative.h line 59; no body exists in the repository). The external
decoder turns one encoded access unit into YUV planes and carries the input
timestamp through to the output timestamp (spec sections 4.4 and 6: ordered
YUV frames with input/output timestamps). -/
def decodeFrame (f : EncodedFrame) : DecodedFrame :=
  ⟨f.data, f.inTs, f.inTs⟩

/-- Events seen by the decode pipeline: a frame boundary completes an access
unit, or the consumer callback returns. -/
inductive VideoEvent where
  | frameComplete (f : EncodedFrame)
  | callbackReturned
deriving DecidableEq, Repr

/-- Decode-pipeline state: the number of delivered frames whose consumer
callback has not yet returned, and the frames delivered so far in order. -/
structure PipelineState where
  inFlight : Nat
  delivered : List DecodedFrame
deriving DecidableEq, Repr

/-- The pipeline's start state: nothing in flight, nothing delivered. -/
def pipelineInit : PipelineState := ⟨0, []⟩

/-- Modelled from the spec: the backpressure policy of the Video Reassembler
(spec section 4.4; the reassembler itself has no body in the repository). On
a frame boundary, if the previous consumer callback has not returned the new
frame is dropped rather than queued; otherwise the frame is decoded and
delivered. A callback return frees the single in-flight slot. -/
def pipelineStep (s : PipelineState) : VideoEvent → PipelineState
  | .callbackReturned => ⟨s.inFlight - 1, s.delivered⟩
  | .frameComplete f =>
    if s.inFlight = 0 then ⟨1, s.delivered ++ [decodeFrame f]⟩ else s

/-- Run the pipeline over a sequence of events. -/
def pipelineRun (s : PipelineState) : List VideoEvent → PipelineState
  | [] => s
  | e :: es => pipelineRun (pipelineStep s e) es

/-- The event sequence in which every consumer callback returns before the
next frame completes (no consumer stall). -/
def noStallEvents : List EncodedFrame → List VideoEvent
  | [] => []
  | f :: fs => .frameComplete f :: .callbackReturned :: noStallEvents fs

theorem pipelineRun_noStall (fs : List EncodedFrame) (d : List DecodedFrame) :
    pipelineRun ⟨0, d⟩ (noStallEvents fs) = ⟨0, d ++ fs.map decodeFrame⟩ := by
  induction fs generalizing d with
  | nil => simp [noStallEvents, pipelineRun]
  | cons f fs ihf =>
    show pipelineRun
      (pipelineStep (pipelineStep ⟨0, d⟩ (.frameComplete f)) .callbackReturned)
      (noStallEvents fs) = _
    have hstep : pipelineStep (pipelineStep ⟨0, d⟩ (.frameComplete f)) .callbackReturned
        = ⟨0, d ++ [decodeFrame f]⟩ := by
      simp [pipelineStep]
    rw [hstep, ihf (d ++ [decodeFrame f])]
    simp

theorem pipelineRun_inFlight_le_one (evs : List VideoEvent) (s : PipelineState)
    (hs : s.inFlight ≤ 1) : (pipelineRun s evs).inFlight ≤ 1 := by
  induction evs generalizing s with
  | nil => exact hs
  | cons e es ihe =>
    match e with
    | .callbackReturned => exact ihe _ (by simp [pipelineStep]; omega)
    | .frameComplete f =>
      by_cases h0 : s.inFlight = 0
      · exact ihe _ (by simp [pipelineStep, h0])
      · exact ihe _ (by simp [pipelineStep, h0]; omega)

/-- C3: feeding N consecutive complete frames with the consumer callback
always returning before the next frame completes delivers exactly the N frames
in input order; when the input timestamps are non-decreasing so are the output
timestamps of the delivered frames; a frame completing while a callback is
outstanding is dropped, not queued; and in every run the number of delivered
frames in flight never exceeds one. -/
theorem C3_pipeline_delivery (fs : List EncodedFrame)
    (hts : List.Chain' (· ≤ ·) (fs.map EncodedFrame.inTs)) :
    (pipelineRun pipelineInit (noStallEvents fs)).delivered = fs.map decodeFrame ∧
    List.Chain' (· ≤ ·)
      ((pipelineRun pipelineInit (noStallEvents fs)).delivered.map DecodedFrame.outTs) ∧
    (∀ s : PipelineState, ∀ f : EncodedFrame, s.inFlight ≠ 0 →
      pipelineStep s (.frameComplete f) = s) ∧
    (∀ evs : List VideoEvent, (pipelineRun pipelineInit evs).inFlight ≤ 1) := by
  have hrun : pipelineRun pipelineInit (noStallEvents fs) = ⟨0, fs.map decodeFrame⟩ := by
    have := pipelineRun_noStall fs []
    simpa [pipelineInit] using this
  refine ⟨by rw [hrun], ?_, ?_, ?_⟩
  · rw [hrun]
    simp only [List.map_map]
    have : (DecodedFrame.outTs ∘ decodeFrame) = EncodedFrame.inTs := by
      funext f
      rfl
    rw [this]
    exact hts
  · intro s f h0
    simp [pipelineStep, h0]
  · intro evs
    exact pipelineRun_inFlight_le_one evs pipelineInit (by simp [pipelineInit])

/-- Witness for C3 at two frames with timestamps 10 and 20 fed without any
consumer stall. -/
theorem C3_pipeline_delivery_witness :
    (pipelineRun pipelineInit
        (noStallEvents [⟨[1], 10⟩, ⟨[2], 20⟩])).delivered =
      [DecodedFrame.mk [1] 10 10, DecodedFrame.mk [2] 20 20] :=
  (C3_pipeline_delivery [⟨[1], 10⟩, ⟨[2], 20⟩] (by simp)).1

/-! ### Session State Machine -/

/-- Session State (spec section 3): exactly one of six phases. -/
inductive SessionPhase where
  | Disconnected
  | Connecting
  | Handshaking
  | Streaming
  | Closing
  | Faulted
deriving DecidableEq, Repr

/-- Events driving the Session State Machine (spec section 3: transitions are
driven only by explicit events — packet received, timeout fired, transport
error, user-requested close — plus the heartbeat cadence timer). -/
inductive SessionEvent where
  | openRequest
  | transportConnected
  | handshakeAck
  | malformedAck
  | handshakeTimeout
  | heartbeatTick
  | heartbeatAck
  | videoPacket
  | inactivityTimeout
  | transportError
  | closeRequest
  | closeComplete
deriving DecidableEq, Repr

/-- Outbound protocol commands issued by the Session State Machine
(`CPC200ProtocolHandler::InitializeSession` / `SendHeartbeat` in
USBConnectionNative.h lines 211-212, declaration only). -/
inductive SessionCmd where
  | initSession (width height fps : Nat)
  | heartbeat
deriving DecidableEq, Repr

/-- Session machine state: the phase, whether the current connection's
handshake completed with a valid acknowledgment, and how many consecutive
heartbeat intervals have elapsed without an acknowledgment. -/
structure SessionState where
  phase : SessionPhase
  handshakeDone : Bool
  missedHeartbeats : Nat
deriving DecidableEq, Repr

/-- The session's start state. -/
def sessionInit : SessionState := ⟨.Disconnected, false, 0⟩

/-- Modelled from the spec: heartbeat policy (spec section 4.3) — failure to
receive any acknowledgment within two consecutive intervals forces Faulted. -/
def HEARTBEAT_MISS_LIMIT : Nat := 2

/-- Modelled from the spec: the Session State Machine transition function
(spec section 4.3; `CPC200ProtocolHandler` has declarations only in
USBConnectionNative.h, no bodies exist in the repository). Returns the next
state and the commands sent on the transition. A heartbeat command is sent on
every cadence tick while Streaming, regardless of other traffic. -/
def sessionStep (s : SessionState) : SessionEvent → SessionState × List SessionCmd
  | .closeRequest => ({ s with phase := .Closing }, [])
  | e =>
    match s.phase, e with
    | .Disconnected, .openRequest => ({ s with phase := .Connecting }, [])
    | .Connecting, .transportConnected =>
        ({ s with phase := .Handshaking, handshakeDone := false },
          [.initSession 800 480 30])
    | .Handshaking, .handshakeAck =>
        (⟨.Streaming, true, 0⟩, [])
    | .Handshaking, .handshakeTimeout => ({ s with phase := .Faulted }, [])
    | .Handshaking, .malformedAck => ({ s with phase := .Faulted }, [])
    | .Streaming, .heartbeatAck => ({ s with missedHeartbeats := 0 }, [])
    | .Streaming, .videoPacket => (s, [])
    | .Streaming, .heartbeatTick =>
        if HEARTBEAT_MISS_LIMIT ≤ s.missedHeartbeats + 1 then
          ({ s with phase := .Faulted, missedHeartbeats := s.missedHeartbeats + 1 },
            [.heartbeat])
        else
          ({ s with missedHeartbeats := s.missedHeartbeats + 1 }, [.heartbeat])
    | .Streaming, .inactivityTimeout => ({ s with phase := .Faulted }, [])
    | .Streaming, .transportError => ({ s with phase := .Faulted }, [])
    | .Closing, .closeComplete => ({ s with phase := .Disconnected }, [])
    | _, _ => (s, [])

/-- Run the session machine over a sequence of events, ignoring the emitted
commands. -/
def sessionRun (s : SessionState) : List SessionEvent → SessionState
  | [] => s
  | e :: es => sessionRun (sessionStep s e).1 es

/-! ### Session State Machine lemmas -/

theorem sessionStep_faulted (s : SessionState) (e : SessionEvent)
    (hs : s.phase = .Faulted) (he : e = .heartbeatTick ∨ e = .videoPacket) :
    (sessionStep s e).1 = s := by
  obtain ⟨ph, hd, mh⟩ := s
  simp only at hs
  subst hs
  rcases he with rfl | rfl <;> rfl

theorem sessionRun_faulted (evs : List SessionEvent) (s : SessionState)
    (hs : s.phase = .Faulted)
    (honly : ∀ e ∈ evs, e = .heartbeatTick ∨ e = .videoPacket) :
    (sessionRun s evs).phase = .Faulted := by
  induction evs generalizing s with
  | nil => exact hs
  | cons e es ihe =>
    show (sessionRun (sessionStep s e).1 es).phase = .Faulted
    rw [sessionStep_faulted s e hs (honly e (by simp))]
    exact ihe s hs (fun e' h' => honly e' (by simp [h']))

theorem sessionStep_streaming_tick (hd : Bool) (mh : Nat) :
    sessionStep ⟨.Streaming, hd, mh⟩ .heartbeatTick =
      (if HEARTBEAT_MISS_LIMIT ≤ mh + 1 then
        ((⟨.Faulted, hd, mh + 1⟩ : SessionState), [SessionCmd.heartbeat])
      else ((⟨.Streaming, hd, mh + 1⟩ : SessionState), [SessionCmd.heartbeat])) := rfl

/-- Number of heartbeat cadence ticks in an event sequence. -/
def countTicks : List SessionEvent → Nat
  | [] => 0
  | .heartbeatTick :: es => countTicks es + 1
  | _ :: es => countTicks es

theorem sessionRun_streaming_tick_after_miss (evs : List SessionEvent)
    (s : SessionState) (hs : s.phase = .Streaming) (hm : 1 ≤ s.missedHeartbeats)
    (honly : ∀ e ∈ evs, e = .heartbeatTick ∨ e = .videoPacket)
    (ht : 1 ≤ countTicks evs) :
    (sessionRun s evs).phase = .Faulted := by
  induction evs generalizing s with
  | nil => simp [countTicks] at ht
  | cons e es ihe =>
    obtain ⟨ph, hd, mh⟩ := s
    simp only at hs hm
    subst hs
    show (sessionRun (sessionStep ⟨.Streaming, hd, mh⟩ e).1 es).phase = .Faulted
    have honly2 : ∀ e2 ∈ es, e2 = SessionEvent.heartbeatTick ∨ e2 = .videoPacket :=
      fun e2 h2 => honly e2 (List.mem_cons_of_mem e h2)
    rcases honly e (List.mem_cons_self e es) with rfl | rfl
    · rw [sessionStep_streaming_tick,
        if_pos (by simp [HEARTBEAT_MISS_LIMIT]; omega)]
      exact sessionRun_faulted es _ rfl honly2
    · exact ihe _ rfl hm honly2 ht

theorem sessionRun_streaming_two_ticks (evs : List SessionEvent)
    (s : SessionState) (hs : s.phase = .Streaming)
    (honly : ∀ e ∈ evs, e = .heartbeatTick ∨ e = .videoPacket)
    (ht : 2 ≤ countTicks evs) :
    (sessionRun s evs).phase = .Faulted := by
  induction evs generalizing s with
  | nil => simp [countTicks] at ht
  | cons e es ihe =>
    obtain ⟨ph, hd, mh⟩ := s
    simp only at hs
    subst hs
    show (sessionRun (sessionStep ⟨.Streaming, hd, mh⟩ e).1 es).phase = .Faulted
    have honly2 : ∀ e2 ∈ es, e2 = SessionEvent.heartbeatTick ∨ e2 = .videoPacket :=
      fun e2 h2 => honly e2 (List.mem_cons_of_mem e h2)
    rcases honly e (List.mem_cons_self e es) with rfl | rfl
    · rw [sessionStep_streaming_tick]
      have htes : 1 ≤ countTicks es := by
        have : countTicks (SessionEvent.heartbeatTick :: es) = countTicks es + 1 := rfl
        omega
      by_cases hlim : HEARTBEAT_MISS_LIMIT ≤ mh + 1
      · rw [if_pos hlim]
        exact sessionRun_faulted es _ rfl honly2
      · rw [if_neg hlim]
        exact sessionRun_streaming_tick_after_miss es _ rfl (by simp) honly2 htes
    · exact ihe _ rfl honly2 (by
        have : countTicks (SessionEvent.videoPacket :: es) = countTicks es := rfl
        omega)

/-- C4: while the session is Streaming, receiving no heartbeat acknowledgment
for more than two consecutive heartbeat intervals (only cadence ticks and
video traffic arrive) drives the machine to Faulted; and a heartbeat command
is sent on every cadence tick in Streaming regardless of other traffic. -/
theorem C4_heartbeat_watchdog (s : SessionState) (evs : List SessionEvent)
    (hs : s.phase = .Streaming)
    (honly : ∀ e ∈ evs, e = .heartbeatTick ∨ e = .videoPacket)
    (ht : 2 < countTicks evs) :
    (sessionRun s evs).phase = .Faulted ∧
    (∀ st : SessionState, st.phase = .Streaming →
      (sessionStep st .heartbeatTick).2 = [SessionCmd.heartbeat]) := by
  refine ⟨sessionRun_streaming_two_ticks evs s hs honly (by omega), ?_⟩
  intro st hst
  obtain ⟨ph, hd, mh⟩ := st
  simp only at hst
  subst hst
  rw [sessionStep_streaming_tick]
  by_cases hlim : HEARTBEAT_MISS_LIMIT ≤ mh + 1
  · rw [if_pos hlim]
  · rw [if_neg hlim]

/-- Witness for C4: from Streaming with a fresh heartbeat counter, three
unacknowledged ticks (with a video packet interleaved) end in Faulted. -/
theorem C4_heartbeat_watchdog_witness :
    (sessionRun ⟨.Streaming, true, 0⟩
        [.heartbeatTick, .videoPacket, .heartbeatTick, .heartbeatTick]).phase =
      SessionPhase.Faulted :=
  (C4_heartbeat_watchdog ⟨.Streaming, true, 0⟩
    [.heartbeatTick, .videoPacket, .heartbeatTick, .heartbeatTick]
    rfl (by decide) (by decide)).1

theorem sessionStep_to_streaming (s : SessionState) (e : SessionEvent)
    (h : (sessionStep s e).1.phase = .Streaming) :
    s.phase = .Streaming ∨ (s.phase = .Handshaking ∧ e = .handshakeAck) := by
  obtain ⟨ph, hd, mh⟩ := s
  cases ph <;> cases e <;>
    first
    | (left; rfl)
    | (right; exact ⟨rfl, rfl⟩)
    | exact SessionPhase.noConfusion h

theorem sessionStep_keeps_done (s : SessionState) (e : SessionEvent)
    (hs : s.phase = .Streaming → s.handshakeDone = true)
    (h : (sessionStep s e).1.phase = .Streaming) :
    (sessionStep s e).1.handshakeDone = true := by
  rcases sessionStep_to_streaming s e h with h1 | ⟨h1, rfl⟩
  · obtain ⟨ph, hd, mh⟩ := s
    simp only at h1
    subst h1
    have hd1 : hd = true := hs rfl
    subst hd1
    cases e <;>
      first
      | rfl
      | (rw [sessionStep_streaming_tick]; split <;> rfl)
  · obtain ⟨ph, hd, mh⟩ := s
    simp only at h1
    subst h1
    rfl

theorem sessionRun_streaming_done (evs : List SessionEvent) (s : SessionState)
    (hinv : s.phase = .Streaming → s.handshakeDone = true) :
    (sessionRun s evs).phase = .Streaming →
      (sessionRun s evs).handshakeDone = true := by
  induction evs generalizing s with
  | nil => exact hinv
  | cons e es ihe =>
    exact ihe (sessionStep s e).1 (sessionStep_keeps_done s e hinv)

theorem sessionRun_reach_streaming (evs : List SessionEvent) (s : SessionState)
    (hs : s.phase ≠ .Streaming)
    (h : (sessionRun s evs).phase = .Streaming) :
    SessionEvent.handshakeAck ∈ evs := by
  induction evs generalizing s with
  | nil => exact absurd h hs
  | cons e es ihe =>
    by_cases hcur : (sessionStep s e).1.phase = .Streaming
    · rcases sessionStep_to_streaming s e hcur with h1 | ⟨h1, rfl⟩
      · exact absurd h1 hs
      · exact List.mem_cons_self _ _
    · exact List.mem_cons_of_mem e (ihe (sessionStep s e).1 hcur h)

/-- C5: starting from the disconnected initial state, every event sequence
that leaves the session machine in Streaming both completed the current
connection's handshake (a valid handshake-acknowledgment arrived while
Handshaking, before any timeout faulted it) and contains a
handshake-acknowledgment event; no event sequence reaches Streaming without
one. -/
theorem C5_streaming_requires_handshake (evs : List SessionEvent)
    (h : (sessionRun sessionInit evs).phase = .Streaming) :
    (sessionRun sessionInit evs).handshakeDone = true ∧
    SessionEvent.handshakeAck ∈ evs := by
  constructor
  · exact sessionRun_streaming_done evs sessionInit
      (by intro hx; simp [sessionInit] at hx) h
  · exact sessionRun_reach_streaming evs sessionInit
      (by simp [sessionInit]) h

/-- Witness for C5: a full connect sequence that ends in Streaming contains
the handshake acknowledgment. -/
theorem C5_streaming_requires_handshake_witness :
    (sessionRun sessionInit
        [.openRequest, .transportConnected, .handshakeAck]).handshakeDone = true ∧
    SessionEvent.handshakeAck ∈
      [SessionEvent.openRequest, SessionEvent.transportConnected,
        SessionEvent.handshakeAck] :=
  C5_streaming_requires_handshake
    [.openRequest, .transportConnected, .handshakeAck] (by decide)

/-! ### Transport -/

/-- Device Identity entry from the enumeration list (spec section 3; the
libusb device descriptor fields the open path matches on). -/
structure UsbDeviceDesc where
  idVendor : Nat
  idProduct : Nat
deriving DecidableEq, Repr

/-- Error taxonomy of the Transport layer (USBConnectionNative.h lines
217-223 plus the spec's `DeviceGone`, spec section 7). -/
inductive UsbError where
  | InitFailed
  | DeviceNotFound
  | AccessDenied
  | TransferFailed
  | Timeout
  | InvalidParam
  | DeviceGone
deriving DecidableEq, Repr

/-- Modelled from the spec: `IsCarlinKitDevice` (declaration only in the
anonymous namespace of USBConnectionNative.h line 183; no body exists in the
repository) — check a device descriptor against the Carlinkit vendor/product
identity. -/
def IsCarlinKitDevice (d : UsbDeviceDesc) : Bool :=
  d.idVendor == CARLINKIT_VENDOR_ID && d.idProduct == CPC200_PRODUCT_ID

/-- Modelled from the spec: `USBConnectionManager::OpenDevice` (declaration
only in USBConnectionNative.h line 60; no body exists in the repository).
Spec section 4.1: enumerate devices, match vendor/product id; fail with
DeviceNotFound when no device matches. The returned handle carries the
matched device's identity. -/
def OpenDevice (vid pid : Nat) (devices : List UsbDeviceDesc) :
    Except UsbError UsbDeviceDesc :=
  match devices.find? (fun d => d.idVendor == vid && d.idProduct == pid) with
  | some d => .ok d
  | none => .error .DeviceNotFound

/-- Transport connection state: whether the device is open, the interface
claimed, the handle still valid, and the device physically present. -/
structure TransportState where
  deviceOpen : Bool
  interfaceClaimed : Bool
  handleValid : Bool
  devicePresent : Bool
deriving DecidableEq, Repr

/-- Outcome of one underlying bulk/control transfer attempt, supplied by the
environment (the USB stack). -/
inductive XferOutcome where
  | success (data : List Nat)
  | timedOut
  | failed
  | gone
deriving DecidableEq, Repr

/-- Result of a Transport read (spec section 4.1): bytes, Timeout,
TransferFailed or DeviceGone; a zero-length byte result is a valid success. -/
inductive ReadResult where
  | ok (data : List Nat)
  | timeout
  | transferFailed
  | deviceGone
deriving DecidableEq, Repr

/-- Result of a Transport write (spec section 4.1): actual written count,
TransferFailed or DeviceGone. -/
inductive WriteResult where
  | written (n : Nat)
  | transferFailed
  | deviceGone
deriving DecidableEq, Repr

/-- Modelled from the spec: the receive path of
`USBConnectionManager::BulkTransfer` (declaration only in
USBConnectionNative.h lines 68-69; no body exists in the repository). Spec
sections 4.1 and 7: one blocking bulk-IN transfer; an invalidated handle
fails with DeviceGone without touching the device; a transfer failure or
device-gone signal invalidates the handle; no internal retry. Returns the new
state, the result, and the number of underlying transfer attempts. -/
def transportRead (s : TransportState) (o : XferOutcome) :
    TransportState × ReadResult × Nat :=
  if s.handleValid then
    match o with
    | .success data => (s, .ok data, 1)
    | .timedOut => (s, .timeout, 1)
    | .failed => ({ s with handleValid := false }, .transferFailed, 1)
    | .gone => ({ s with handleValid := false, devicePresent := false }, .deviceGone, 1)
  else (s, .deviceGone, 0)

/-- Modelled from the spec: the send path of
`USBConnectionManager::BulkTransfer` (same declaration; no body exists in
the repository), with the same failure semantics as the receive path. -/
def transportWrite (s : TransportState) (bytes : List Nat) (o : XferOutcome) :
    TransportState × WriteResult × Nat :=
  if s.handleValid then
    match o with
    | .success _ => (s, .written bytes.length, 1)
    | .timedOut => ({ s with handleValid := false }, .transferFailed, 1)
    | .failed => ({ s with handleValid := false }, .transferFailed, 1)
    | .gone => ({ s with handleValid := false, devicePresent := false }, .deviceGone, 1)
  else (s, .deviceGone, 0)

/-- Modelled from the spec: `USBConnectionManager::ControlTransfer`
(declaration only in USBConnectionNative.h lines 71-74; no body exists in
the repository), with the same failure semantics as the bulk paths. -/
def transportControl (s : TransportState) (o : XferOutcome) :
    TransportState × ReadResult × Nat :=
  transportRead s o

/-- Modelled from the spec: `USBConnectionManager::CloseDevice` together
with `ReleaseInterface` (declarations only in USBConnectionNative.h lines
61 and 65; no bodies exist in the repository). Spec section 4.1: close
releases the interface and the handle, is idempotent, and is safe to call
after the device has already disappeared — it is total and never fails. -/
def transportClose (s : TransportState) : TransportState :=
  { s with deviceOpen := false, interfaceClaimed := false, handleValid := false }

/-! ### Claim theorems for the Transport -/

/-- C6: open() with the Carlinkit identity {vendor 0x1314, product 0x1520}
returns a connection handle when a matching device is present in the
enumeration list, and fails with DeviceNotFound when no matching device is
present. -/
theorem C6_open_device (devices : List UsbDeviceDesc) :
    ((∃ d ∈ devices, IsCarlinKitDevice d = true) →
      ∃ hdl : UsbDeviceDesc,
        OpenDevice CARLINKIT_VENDOR_ID CPC200_PRODUCT_ID devices = .ok hdl) ∧
    ((∀ d ∈ devices, IsCarlinKitDevice d = false) →
      OpenDevice CARLINKIT_VENDOR_ID CPC200_PRODUCT_ID devices =
        .error .DeviceNotFound) := by
  constructor
  · intro hex
    obtain ⟨d, hd, hp⟩ := hex
    have hsome : (devices.find? (fun x => x.idVendor == CARLINKIT_VENDOR_ID &&
        x.idProduct == CPC200_PRODUCT_ID)).isSome := by
      rw [List.find?_isSome]
      exact ⟨d, hd, hp⟩
    obtain ⟨d2, hd2⟩ := Option.isSome_iff_exists.mp hsome
    exact ⟨d2, by simp only [OpenDevice, hd2]⟩
  · intro hall
    have hnone : devices.find? (fun x => x.idVendor == CARLINKIT_VENDOR_ID &&
        x.idProduct == CPC200_PRODUCT_ID) = none := by
      rw [List.find?_eq_none]
      intro x hx
      have hfx : IsCarlinKitDevice x = false := hall x hx
      rw [IsCarlinKitDevice] at hfx
      simp [hfx]
    simp only [OpenDevice, hnone]

/-- Witness for C6: a singleton list holding the CPC200 device opens
successfully; the empty enumeration list yields DeviceNotFound. -/
theorem C6_open_device_witness :
    (∃ hdl : UsbDeviceDesc,
      OpenDevice CARLINKIT_VENDOR_ID CPC200_PRODUCT_ID
        [⟨0x1314, 0x1520⟩] = .ok hdl) ∧
    OpenDevice CARLINKIT_VENDOR_ID CPC200_PRODUCT_ID [] =
      .error .DeviceNotFound :=
  ⟨(C6_open_device [⟨0x1314, 0x1520⟩]).1 ⟨⟨0x1314, 0x1520⟩, by simp, by decide⟩,
   (C6_open_device []).2 (by simp)⟩

/-- C7: a transfer failure or device-gone signal invalidates the handle on
read, write and control paths, and every subsequent Transport call on an
invalidated handle fails with DeviceGone after zero underlying transfer
attempts (no internal retry). -/
theorem C7_handle_invalidation (s : TransportState) (o : XferOutcome)
    (hv : s.handleValid = true) (ho : o = .failed ∨ o = .gone) :
    ((transportRead s o).1.handleValid = false ∧
     (∀ bs : List Nat, (transportWrite s bs o).1.handleValid = false) ∧
     (transportControl s o).1.handleValid = false) ∧
    (∀ s2 : TransportState, s2.handleValid = false →
      ∀ o2 : XferOutcome, ∀ bs : List Nat,
        transportRead s2 o2 = (s2, .deviceGone, 0) ∧
        transportWrite s2 bs o2 = (s2, .deviceGone, 0) ∧
        transportControl s2 o2 = (s2, .deviceGone, 0)) := by
  constructor
  · rcases ho with rfl | rfl
    · exact ⟨by simp [transportRead, hv],
        fun bs => by simp [transportWrite, hv],
        by simp [transportControl, transportRead, hv]⟩
    · exact ⟨by simp [transportRead, hv],
        fun bs => by simp [transportWrite, hv],
        by simp [transportControl, transportRead, hv]⟩
  · intro s2 h2 o2 bs
    exact ⟨by simp [transportRead, h2],
      by simp [transportWrite, h2],
      by simp [transportControl, transportRead, h2]⟩

/-- Witness for C7: a failed transfer on a fresh connection invalidates the
handle, and a later read on an invalidated handle returns DeviceGone with
zero attempts. -/
theorem C7_handle_invalidation_witness :
    (transportRead ⟨true, true, true, true⟩ XferOutcome.failed).1.handleValid
      = false ∧
    transportRead ⟨true, true, false, false⟩ XferOutcome.timedOut =
      (⟨true, true, false, false⟩, ReadResult.deviceGone, 0) :=
  ⟨(C7_handle_invalidation ⟨true, true, true, true⟩ .failed rfl (Or.inl rfl)).1.1,
   ((C7_handle_invalidation ⟨true, true, true, true⟩ .failed rfl (Or.inl rfl)).2
      ⟨true, true, false, false⟩ rfl .timedOut []).1⟩

/-- C8: a Transport read on a valid handle performs exactly one blocking
bulk-IN transfer; a zero-length transfer outcome is a valid success result,
distinct from the Timeout result; no outcome causes more than one underlying
transfer attempt. -/
theorem C8_zero_length_read (s : TransportState) (hv : s.handleValid = true) :
    transportRead s (.success []) = (s, .ok [], 1) ∧
    ReadResult.ok [] ≠ ReadResult.timeout ∧
    (∀ o : XferOutcome, (transportRead s o).2.2 ≤ 1) := by
  refine ⟨by simp [transportRead, hv], by simp, ?_⟩
  intro o
  cases o <;> simp [transportRead, hv]

/-- Witness for C8 on a fresh connection state. -/
theorem C8_zero_length_read_witness :
    transportRead ⟨true, true, true, true⟩ (XferOutcome.success []) =
      (⟨true, true, true, true⟩, ReadResult.ok [], 1) :=
  (C8_zero_length_read ⟨true, true, true, true⟩ rfl).1

/-- C9: close is idempotent — closing twice leaves the Transport in the same
state as closing once — and always releases the interface, the handle and the
device, including when the device has already disappeared (close is total and
never fails; the state with the device absent is closed the same way). -/
theorem C9_close_idempotent (s : TransportState) :
    transportClose (transportClose s) = transportClose s ∧
    (transportClose s).interfaceClaimed = false ∧
    (transportClose s).handleValid = false ∧
    (transportClose s).deviceOpen = false ∧
    transportClose { s with devicePresent := false } =
      { transportClose s with devicePresent := false } :=
  ⟨rfl, rfl, rfl, rfl, rfl⟩
